import Mathlib

/-!
Verification development for the donation-receipt generator
(generate-spendenbescheinigung.py).

The script is embedded shallowly:

* Python strings are `List Char` (wrapped into `String` at function
  boundaries); `str.strip`, `str.replace`, `str.split`, `int(...)`,
  `Decimal(...)` and the `f"..."` number formats are modelled by
  executable Lean functions below.
* `decimal.Decimal` values produced by the script are exact fixed-point
  numbers `mantissa / 10 ^ exp`; the model is the structure `Dec`.
  The default 28-significant-digit context (which would round extremely
  large intermediate results) and the special values NaN/Infinity and
  exponent notation of the `Decimal` string parser are not modelled;
  no claim hinges on them.
* `int(...)` is modelled as whitespace strip, optional sign, digit run
  (the underscore digit separators of Python literals are not modelled).
* `num2words`, the external cardinal-to-words collaborator, is a
  parameter `n2w : Int → Option String` of every function that uses it
  (`none` models the library raising).
* `datetime.strptime` for the three formats used by the script is
  modelled including the field widths of the CPython format regexes
  (day and month 1-2 digits, `%Y` exactly 4 digits, `%y` exactly
  2 digits) and the calendar validity check of the constructor.
* `sorted(items, key=...)` is modelled by a stable insertion sort on
  the same key (Python guarantees exactly a stable ascending sort).
* `str.isalnum` is Unicode-aware in Python; the model `pyIsAlnum`
  covers ASCII alphanumerics plus the Latin-1 letter block, which is
  sufficient for every character appearing in the claims.
* File system writes and the LaTeX compile subprocess are outside the
  modelled transformation; a produced document is a `DocOut` value
  (file name, substitution context, substituted template text).
-/

set_option maxRecDepth 10000

namespace SpendenB

/-- Python str.strip with no argument: drop whitespace on both ends. -/
def pyStrip (s : List Char) : List Char :=
  ((s.dropWhile Char.isWhitespace).reverse.dropWhile Char.isWhitespace).reverse

/-- Python str.strip with a single-character argument, as in strip of underscores. -/
def pyStripChar (x : Char) (s : List Char) : List Char :=
  ((s.dropWhile (fun c => c = x)).reverse.dropWhile (fun c => c = x)).reverse

/-- Python str.replace for a one-character pattern: every occurrence of the
character `a` is replaced by the string `r`. -/
def pyReplaceChar (a : Char) (r : List Char) (s : List Char) : List Char :=
  s.foldr (fun c acc => (if c = a then r else [c]) ++ acc) []

/-- Fueled worker for the general Python str.replace: leftmost, non-overlapping
occurrences of the pattern are replaced. Fuel at least the length of the
subject makes the fuel argument irrelevant. -/
def pyReplaceF : Nat → List Char → List Char → List Char → List Char
  | _, s, [], r => r ++ s.foldr (fun c acc => c :: (r ++ acc)) []
  | 0, s, _ :: _, _ => s
  | _ + 1, [], _ :: _, _ => []
  | f + 1, c :: s, q :: ps, r =>
    if (q :: ps).isPrefixOf (c :: s) then
      r ++ pyReplaceF f ((c :: s).drop (q :: ps).length) (q :: ps) r
    else
      c :: pyReplaceF f s (q :: ps) r

/-- Python str.replace on character lists (general pattern). -/
def pyReplace (s p r : List Char) : List Char := pyReplaceF s.length s p r

/-- Python str.split with a one-character separator. -/
def pySplit (sep : Char) : List Char → List (List Char)
  | [] => [[]]
  | c :: s =>
    if c = sep then [] :: pySplit sep s
    else
      match pySplit sep s with
      | [] => [[c]]
      | h :: t => (c :: h) :: t

/-- Numeric value of a digit string, most significant digit first. -/
def digitsVal (l : List Char) : Nat := l.foldl (fun a c => 10 * a + (c.toNat - 48)) 0

/-- Fueled decimal rendering worker, accumulating digits from the right. -/
def renderNatAux : Nat → Nat → List Char → List Char
  | 0, _, acc => acc
  | f + 1, n, acc =>
    if n = 0 then acc else renderNatAux f (n / 10) (Char.ofNat (48 + n % 10) :: acc)

/-- Decimal rendering of a natural number, as Python str of an int. -/
def decimalRender (n : Nat) : List Char := if n = 0 then ['0'] else renderNatAux n n []

/-- Two-digit zero-padded rendering of a natural number below 100. -/
def pad2 (n : Nat) : List Char := if n < 10 then '0' :: decimalRender n else decimalRender n

/-- Python format 02d of an integer of absolute value below 100. -/
def pyFormat02 (n : Int) : List Char :=
  if n < 0 then '-' :: decimalRender (-n).toNat else pad2 n.toNat

/-- Four-digit zero-padded rendering, as the format of a year. -/
def pad4 (n : Nat) : List Char :=
  List.replicate (4 - (decimalRender n).length) '0' ++ decimalRender n

/-- Digit-run core of Python int parsing. -/
def pyIntCore (ds : List Char) : Option Nat :=
  if ds ≠ [] ∧ ds.all Char.isDigit then some (digitsVal ds) else none

/-- Python int applied to a string: strip, optional sign, digit run;
`none` models a raised ValueError. -/
def pyInt (s : List Char) : Option Int :=
  match pyStrip s with
  | [] => none
  | c :: rest =>
    if c = '-' then (pyIntCore rest).map (fun n => -(n : Int))
    else if c = '+' then (pyIntCore rest).map (fun n => (n : Int))
    else (pyIntCore (c :: rest)).map (fun n => (n : Int))

/-- Exact decimal value `m / 10 ^ exp`, the model of decimal.Decimal. -/
structure Dec where
  m : Int
  exp : Nat
deriving DecidableEq

/-- Unsigned core of the Decimal string parser: digits with at most one point. -/
def pyDecimalCore (ds : List Char) : Option Dec :=
  match pySplit '.' ds with
  | [a] => if a ≠ [] ∧ a.all Char.isDigit then some ⟨(digitsVal a : Int), 0⟩ else none
  | [a, b] =>
    if (a ++ b) ≠ [] ∧ a.all Char.isDigit ∧ b.all Char.isDigit then
      some ⟨(digitsVal (a ++ b) : Int), b.length⟩
    else none
  | _ => none

/-- Python Decimal applied to a string: strip, optional sign, digits with an
optional decimal point; `none` models a raised InvalidOperation. -/
def pyDecimal (s : List Char) : Option Dec :=
  match pyStrip s with
  | [] => none
  | c :: rest =>
    if c = '-' then (pyDecimalCore rest).map (fun d => ⟨-d.m, d.exp⟩)
    else if c = '+' then (pyDecimalCore rest).map (fun d => d)
    else (pyDecimalCore (c :: rest)).map (fun d => d)

/-- Exact addition of decimals: align to the larger exponent. -/
def decAdd (a b : Dec) : Dec :=
  ⟨a.m * (10 : Int) ^ (max a.exp b.exp - a.exp) +
     b.m * (10 : Int) ^ (max a.exp b.exp - b.exp),
   max a.exp b.exp⟩

/-- Round `n / d` (with `d` positive) to an integer, ties to even: the
ROUND_HALF_EVEN rounding of Decimal.quantize and of the f-string formats. -/
def roundHalfEven (n d : Int) : Int :=
  if 2 * (n % d) < d then n / d
  else if d < 2 * (n % d) then n / d + 1
  else if (n / d) % 2 = 0 then n / d else n / d + 1

/-- Value of a decimal in cents, rounded half-even: models
`(dec * 100).quantize(Decimal(1))`. -/
def totalCentsOf (dec : Dec) : Int := roundHalfEven (dec.m * 100) ((10 : Int) ^ dec.exp)

/-- Python format .2f of a decimal (sign of a zero result not modelled). -/
def formatDec2 (dec : Dec) : List Char :=
  if totalCentsOf dec < 0 then
    '-' :: (decimalRender ((-totalCentsOf dec).toNat / 100) ++
      '.' :: pad2 ((-totalCentsOf dec).toNat % 100))
  else
    decimalRender ((totalCentsOf dec).toNat / 100) ++
      '.' :: pad2 ((totalCentsOf dec).toNat % 100)

/-- Python str.capitalize: first character upper, rest lower. -/
def pyCapitalize (w : List Char) : List Char :=
  match w with
  | [] => []
  | c :: t => Char.toUpper c :: t.map Char.toLower

/-- Euro/cent split of amount_to_words (source lines 26-31): strip, turn
points into commas, split on the comma, pad or default the cent part. -/
def amountParts (amount : String) : Option (List Char × List Char) :=
  let s := pyReplaceChar '.' [','] (pyStrip amount.data)
  if s.contains ',' then
    match pySplit ',' s with
    | [e, c] => some (e, (c ++ ['0', '0']).take 2)
    | _ => none
  else some (s, ['0', '0'])

/-- amount_to_words of the source: words from the raw display string.
`none` models a raised exception (unpacking error, int failure, or the
external words library raising). -/
def amount_to_words (n2w : Int → Option String) (amount : String) : Option String :=
  match amountParts amount with
  | none => none
  | some (e, cent) =>
    match pyInt e with
    | none => none
    | some euro =>
      match n2w euro with
      | none => none
      | some w =>
        some (String.mk (pyCapitalize w.data ++
          (if cent ≠ [] ∧ cent ≠ ['0', '0'] then
            " Euro und ".data ++ cent ++ "/100".data
          else " Euro".data)))

/-- Whole-euro part of amount_decimal_to_words: Decimal floor-division by 100
truncates toward zero. -/
def euroPartOf (dec : Dec) : Int := (totalCentsOf dec).tdiv 100

/-- Cent part of amount_decimal_to_words: Decimal remainder carries the sign
of the dividend. -/
def centPartOf (dec : Dec) : Int := (totalCentsOf dec).tmod 100

/-- amount_decimal_to_words of the source: words from an exact decimal. -/
def amount_decimal_to_words (n2w : Int → Option String) (dec : Dec) : Option String :=
  match n2w (euroPartOf dec) with
  | none => none
  | some w =>
    some (String.mk (pyCapitalize w.data ++
      (if centPartOf dec ≠ 0 then
        " Euro und ".data ++ pyFormat02 (centPartOf dec) ++ "/100".data
      else " Euro".data)))

/-- Python str.isalnum, modelled on ASCII plus the Latin-1 letter block
(covers the umlauts of the claims; full Unicode is not needed). -/
def pyIsAlnum (c : Char) : Bool :=
  c.isAlphanum || (0xC0 ≤ c.toNat && c.toNat ≤ 0xFF && c.toNat ≠ 0xD7 && c.toNat ≠ 0xF7)

/-- safe of the source: keep alphanumerics, underscore and hyphen, replace
everything else by underscore, then strip underscores on both ends. -/
def safe (s : String) : String :=
  String.mk (pyStripChar '_'
    (s.data.map (fun c => if pyIsAlnum c || c = '_' || c = '-' then c else '_')))

/-- Calendar date, the model of datetime restricted to its date part. -/
structure PyDate where
  y : Nat
  m : Nat
  d : Nat
deriving DecidableEq

/-- Gregorian leap-year rule used by datetime. -/
def isLeap (y : Nat) : Bool := y % 4 = 0 && (y % 100 ≠ 0 || y % 400 = 0)

/-- Length of a month as checked by the datetime constructor. -/
def daysInMonth (y m : Nat) : Nat :=
  if m = 2 then (if isLeap y then 29 else 28)
  else if m = 4 ∨ m = 6 ∨ m = 9 ∨ m = 11 then 30
  else 31

/-- Digit field of a strptime format: nonempty digit run. -/
def fieldNat (l : List Char) : Option Nat :=
  if l ≠ [] ∧ l.all Char.isDigit then some (digitsVal l) else none

/-- Validity check of the datetime constructor. -/
def mkValidDate (y m d : Nat) : Option PyDate :=
  if 1 ≤ y ∧ y ≤ 9999 ∧ 1 ≤ m ∧ m ≤ 12 ∧ 1 ≤ d ∧ d ≤ daysInMonth y m then
    some ⟨y, m, d⟩
  else none

/-- strptime with format day.month.year, four-digit year (the CPython regex
takes 1-2 digits for day and month and exactly 4 digits for the year). -/
def strptimeDMY (s : String) : Option PyDate :=
  match pySplit '.' s.data with
  | [d, m, y] =>
    if d.length ≤ 2 ∧ m.length ≤ 2 ∧ y.length = 4 then
      match fieldNat d, fieldNat m, fieldNat y with
      | some dv, some mv, some yv => mkValidDate yv mv dv
      | _, _, _ => none
    else none
  | _ => none

/-- strptime with format day.month.year, two-digit year: 00-68 map to the
2000s, 69-99 to the 1900s. -/
def strptimeDMy2 (s : String) : Option PyDate :=
  match pySplit '.' s.data with
  | [d, m, y] =>
    if d.length ≤ 2 ∧ m.length ≤ 2 ∧ y.length = 2 then
      match fieldNat d, fieldNat m, fieldNat y with
      | some dv, some mv, some yv =>
        mkValidDate (if yv ≤ 68 then 2000 + yv else 1900 + yv) mv dv
      | _, _, _ => none
    else none
  | _ => none

/-- strptime with the ISO format year-month-day. -/
def strptimeYMD (s : String) : Option PyDate :=
  match pySplit '-' s.data with
  | [y, m, d] =>
    if y.length = 4 ∧ m.length ≤ 2 ∧ d.length ≤ 2 then
      match fieldNat y, fieldNat m, fieldNat d with
      | some yv, some mv, some dv => mkValidDate yv mv dv
      | _, _, _ => none
    else none
  | _ => none

/-- parse_date of the source: strip, then try the three formats in order,
`none` instead of raising. -/
def parse_date (s : String) : Option PyDate :=
  let t := String.mk (pyStrip s.data)
  match strptimeDMY t with
  | some d => some d
  | none =>
    match strptimeDMy2 t with
    | some d => some d
    | none => strptimeYMD t

/-- Rank of a date, strictly monotone in the lexicographic order of
year, month, day that datetime comparison uses. -/
def dateRank (d : PyDate) : Nat := d.y * 10000 + d.m * 100 + d.d

/-- One parsed CSV row, the DonationRecord of the spec. -/
structure Record where
  nachname : String
  vorname : String
  strasse : String
  strasse2 : String
  ort : String
  betrag : String
  spendendatum : String
deriving DecidableEq

/-- Parsed date of a record, as stored in the dateobj column. -/
def dateobj (r : Record) : Option PyDate := parse_date r.spendendatum

/-- Sort key of the consolidated path: the parsed date, or datetime.min
(year 1, month 1, day 1) when the date is unparseable. -/
def sortKey (r : Record) : Nat :=
  match dateobj r with
  | some d => dateRank d
  | none => dateRank ⟨1, 1, 1⟩

/-- Insert into a (sorted) list after every element of smaller or equal key:
one step of a stable ascending sort. -/
def insSorted {α : Type} (key : α → Nat) : List α → α → List α
  | [], a => [a]
  | b :: t, a => if key b ≤ key a then b :: insSorted key t a else a :: b :: t

/-- Left fold of stable insertion over the input. -/
def sortAux {α : Type} (key : α → Nat) (acc : List α) : List α → List α
  | [] => acc
  | a :: t => sortAux key (insSorted key acc a) t

/-- Stable ascending sort by key, the semantics of Python sorted. -/
def sortByKey {α : Type} (key : α → Nat) (l : List α) : List α := sortAux key [] l

/-- The sort applied by the consolidated path (source line 156). -/
def pySortByDate (items : List Record) : List Record := sortByKey sortKey items

/-- Amount normalization of the consolidated loop (source lines 161-167):
strip, drop thousands points, decimal comma to point, Decimal parse,
and exactly zero on failure. -/
def parseAmountDec (betrag : String) : Dec :=
  match pyDecimal (pyReplaceChar ',' ['.'] (pyReplaceChar '.' [] (pyStrip betrag.data))) with
  | some d => d
  | none => ⟨0, 2⟩

/-- Accumulator of the consolidated loop: rendered rows and running total. -/
structure ConsAcc where
  rows : List (List Char)
  total : Dec
deriving DecidableEq

/-- One iteration of the consolidated loop (source lines 160-172). -/
def consStep (acc : ConsAcc) (it : Record) : ConsAcc :=
  ⟨acc.rows ++ [it.spendendatum.data ++ " & Spende & Nein & --".data ++
      pyReplaceChar '.' [','] (formatDec2 (parseAmountDec it.betrag)) ++
      " Euro -- \\\\ \\hline".data],
   decAdd acc.total (parseAmountDec it.betrag)⟩

/-- The consolidated loop over the sorted records, starting from
Decimal 0.00 and no rows. -/
def consFold (items : List Record) : ConsAcc := items.foldl consStep ⟨[], ⟨0, 2⟩⟩

/-- Python newline join of the rendered rows. -/
def joinNL : List (List Char) → List Char
  | [] => []
  | [r] => r
  | r :: rs => r ++ '\n' :: joinNL rs

/-- Token substitution pass of the source (lines 144 and 197): sequential
whole-text replace of each context key by its value, in context order. -/
def substAll (ctx : List (String × String)) (t : List Char) : List Char :=
  ctx.foldl (fun acc kv => pyReplace acc kv.1.data kv.2.data) t

/-- One produced document: output file name, substitution context and the
substituted template text. -/
structure DocOut where
  fname : String
  ctx : List (String × String)
  tex : String
deriving DecidableEq

/-- Output file name of the single-receipt path (source line 145): sanitized
names, then the raw donation date with points turned into hyphens. -/
def singleFname (nachname vorname spendendatum : String) : String :=
  String.mk ((safe nachname).data ++ '_' :: (safe vorname).data ++ '_' ::
    pyReplaceChar '.' ['-'] spendendatum.data ++ ".tex".data)

/-- Display name: given name, space, surname, stripped. -/
def displayName (vorname nachname : String) : String :=
  String.mk (pyStrip (vorname.data ++ ' ' :: nachname.data))

/-- Substitution context of the single-receipt path, in insertion order. -/
def singleCtx (n2w : Int → Option String) (ausst : String) (it : Record) :
    List (String × String) :=
  [("SPENDERNACHNAME", it.nachname),
   ("SPENDERVORNAME", it.vorname),
   ("SPENDERNAME", displayName it.vorname it.nachname),
   ("SPENDERSTRASSE", it.strasse),
   ("SPENDERZUSATZ", it.strasse2),
   ("SPENDERORT", it.ort),
   ("BETRAGZIFFERN", String.mk (pyReplaceChar '.' [','] it.betrag.data)),
   ("BETRAGBUCHSTABEN",
     match amount_to_words n2w it.betrag with
     | some w => w
     | none => it.betrag),
   ("SPENDENDATUM", it.spendendatum),
   ("AUSSTELLUNGSDATUM", ausst)]

/-- Substitution context of the consolidated path, in insertion order. The
name fields come from the first record in input order, the address fields
from the first record in sorted order, exactly as in the source. -/
def consCtx (n2w : Int → Option String) (ausst : String) (first firstSorted : Record)
    (acc : ConsAcc) (year : PyDate) : List (String × String) :=
  [("SPENDERNACHNAME", first.nachname),
   ("SPENDERVORNAME", first.vorname),
   ("BETRAGZIFFERN", String.mk (pyReplaceChar '.' [','] (formatDec2 acc.total))),
   ("SPENDERNAME", displayName first.vorname first.nachname),
   ("SPENDERSTRASSE", firstSorted.strasse),
   ("SPENDERZUSATZ", firstSorted.strasse2),
   ("SPENDERORT", firstSorted.ort),
   ("DONATION_ROWS", String.mk (joinNL acc.rows)),
   ("GESAMTBETRAGSWORTE",
     match amount_decimal_to_words n2w acc.total with
     | some w => w
     | none => ""),
   ("AUSSTELLUNGSDATUM", ausst),
   ("SPENDENJAHR", String.mk (decimalRender year.y))]

/-- Processing of one donor group (the body of the loop over groups,
source lines 120-206). A single record goes to the single-receipt path;
two or more records go to the consolidated path, whose receipt year
re-parses the raw date of the last sorted record strictly as DD.MM.YYYY;
`Except.error` models an uncaught exception. -/
def processGroup (n2w : Int → Option String) (tmplS tmplC ausst : String)
    (items : List Record) : Except String DocOut :=
  match items with
  | [] => Except.error "empty group"
  | [it] =>
    let ctx := singleCtx n2w ausst it
    Except.ok ⟨singleFname it.nachname it.vorname it.spendendatum, ctx,
      String.mk (substAll ctx tmplS.data)⟩
  | first :: second :: rest =>
    let sorted := pySortByDate (first :: second :: rest)
    let acc := consFold sorted
    match sorted.getLast? with
    | none => Except.error "empty group"
    | some lastIt =>
      match strptimeDMY lastIt.spendendatum with
      | none => Except.error "ValueError"
      | some year =>
        match sorted.head? with
        | none => Except.error "empty group"
        | some firstSorted =>
          let ctx := consCtx n2w ausst first firstSorted acc year
          Except.ok ⟨String.mk ((safe first.nachname).data ++ '_' ::
              (safe first.vorname).data ++ "_sammel.tex".data), ctx,
            String.mk (substAll ctx tmplC.data)⟩

/-- CSV row intake (source lines 86-100): skip empty rows and comment rows,
pad to 7 fields, strip every field. -/
def rowToRecord (r : List String) : Option Record :=
  match r with
  | [] => none
  | f :: _ =>
    if (pyStrip f.data).head? = some '#' then none
    else
      let g := ((r ++ List.replicate 7 "").take 7).map (fun s => String.mk (pyStrip s.data))
      some ⟨g.getD 0 "", g.getD 1 "", g.getD 2 "", g.getD 3 "",
        g.getD 4 "", g.getD 5 "", g.getD 6 ""⟩

/-- Grouping key: case-insensitive surname and given name. -/
def groupKey (r : Record) : String × String :=
  (String.mk (r.nachname.data.map Char.toLower), String.mk (r.vorname.data.map Char.toLower))

/-- Append a record to its group, keeping first-seen group order. -/
def addToGroups : List ((String × String) × List Record) → Record →
    List ((String × String) × List Record)
  | [], r => [(groupKey r, [r])]
  | (k, l) :: t, r =>
    if k = groupKey r then (k, l ++ [r]) :: t else (k, l) :: addToGroups t r

/-- Grouping of all records by donor identity. -/
def groupRows (rows : List Record) : List ((String × String) × List Record) :=
  rows.foldl addToGroups []

/-- Inputs of one run that the script reads from the outside world. -/
structure Env where
  csvExists : Bool
  templateExists : Bool
  collectiveExists : Bool
  ausstellungsdatumArg : Option String
  today : String
  csvRows : List (List String)
deriving DecidableEq

/-- Observable outcome of a run: an early return after a pre-flight
diagnostic, a crash by uncaught exception, or a completed batch. The exit
status of a plain return from main is 0; an uncaught exception exits 1. -/
inductive MainOutcome where
  | earlyExit (msg : String) (code : Nat)
  | crashed (msg : String) (code : Nat)
  | completed (docs : List DocOut) (code : Nat)
deriving DecidableEq

/-- strftime of a date in format DD.MM.YYYY. -/
def fmtDMY (d : PyDate) : String :=
  String.mk (pad2 d.d ++ '.' :: pad2 d.m ++ '.' :: pad4 d.y)

/-- Run every donor group in turn; the first uncaught exception aborts. -/
def runGroups (n2w : Int → Option String) (tmplS tmplC ausst : String) :
    List (List Record) → Except String (List DocOut)
  | [] => Except.ok []
  | g :: gs =>
    match processGroup n2w tmplS tmplC ausst g with
    | Except.error e => Except.error e
    | Except.ok d =>
      match runGroups n2w tmplS tmplC ausst gs with
      | Except.error e => Except.error e
      | Except.ok ds => Except.ok (d :: ds)

/-- Outcome of the batch over the grouped records. -/
def runAll (n2w : Int → Option String) (tmplS tmplC ausst : String)
    (groups : List ((String × String) × List Record)) : MainOutcome :=
  match runGroups n2w tmplS tmplC ausst (groups.map Prod.snd) with
  | Except.error e => MainOutcome.crashed e 1
  | Except.ok ds => MainOutcome.completed ds 0

/-- main of the source from the pre-flight checks on: the three existence
checks print a diagnostic and return (exit status 0); rows are read and
grouped; an explicitly given issue date that fails to parse prints a
diagnostic and returns (exit status 0); otherwise every group is processed. -/
def mainModel (n2w : Int → Option String) (tmplS tmplC : String) (env : Env) : MainOutcome :=
  if env.csvExists = false then MainOutcome.earlyExit "CSV nicht gefunden" 0
  else if env.templateExists = false then
    MainOutcome.earlyExit "Einzel-Template nicht gefunden" 0
  else if env.collectiveExists = false then
    MainOutcome.earlyExit "Sammel-Template nicht gefunden" 0
  else
    let rows := env.csvRows.filterMap rowToRecord
    let groups := groupRows rows
    match env.ausstellungsdatumArg with
    | some s =>
      match parse_date s with
      | none =>
        MainOutcome.earlyExit
          "Ungültiges Ausstellungsdatum. Erwartetes Format: DD.MM.YYYY oder YYYY-MM-DD" 0
      | some dt => runAll n2w tmplS tmplC (fmtDMY dt) groups
    | none => runAll n2w tmplS tmplC env.today groups

/-- Exit status carried by an outcome. -/
def exitCode : MainOutcome → Nat
  | MainOutcome.earlyExit _ c => c
  | MainOutcome.crashed _ c => c
  | MainOutcome.completed _ c => c

/-- Documents carried by an outcome. -/
def docsOf : MainOutcome → List DocOut
  | MainOutcome.earlyExit _ _ => []
  | MainOutcome.crashed _ _ => []
  | MainOutcome.completed ds _ => ds

/-- Exact accumulation in order demanded by the spec: fold exact decimal
addition over the parsed amounts, starting from 0.00, a failed parse
contributing exactly zero (the zero is inside parseAmountDec). -/
def specExactSum (amounts : List String) : Dec :=
  amounts.foldl (fun t s => decAdd t (parseAmountDec s)) ⟨0, 2⟩

/-- A concrete total words collaborator for closed evaluations. -/
def n2wConst : Int → Option String := fun _ => some "x"

/-- A concrete always-failing words collaborator for closed evaluations. -/
def n2wNone : Int → Option String := fun _ => none

/-! Helper lemmas about the Python string primitives. -/

theorem head?_dropWhile_not (p : Char → Bool) :
    ∀ (l : List Char) (a : Char), (l.dropWhile p).head? = some a → p a = false := by
  intro l
  induction l with
  | nil => intro a h; simp [List.dropWhile] at h
  | cons c t ih =>
    intro a h
    by_cases hc : p c
    · rw [List.dropWhile_cons_of_pos hc] at h
      exact ih a h
    · rw [List.dropWhile_cons_of_neg hc] at h
      simp only [List.head?_cons, Option.some.injEq] at h
      subst h
      simpa using hc

theorem isPrefix_head? {l1 l2 : List Char} {a : Char}
    (hp : l1 <+: l2) (h : l1.head? = some a) : l2.head? = some a := by
  obtain ⟨t, rfl⟩ := hp
  cases l1 with
  | nil => simp at h
  | cons c s => simpa using h

theorem pyStripChar_eq_rdrop (x : Char) (s : List Char) :
    pyStripChar x s =
      List.rdropWhile (fun c => c = x) (s.dropWhile (fun c => c = x)) := by
  simp [pyStripChar, List.rdropWhile]

theorem pyStripChar_head? (x : Char) (s : List Char) :
    (pyStripChar x s).head? ≠ some x := by
  intro h
  rw [pyStripChar_eq_rdrop] at h
  have h2 : (s.dropWhile (fun c => c = x)).head? = some x :=
    isPrefix_head? (List.rdropWhile_prefix _ _) h
  have := head?_dropWhile_not (fun c => c = x) _ _ h2
  simp at this

theorem pyStripChar_getLast? (x : Char) (s : List Char) :
    (pyStripChar x s).getLast? ≠ some x := by
  intro h
  rw [pyStripChar_eq_rdrop] at h
  set u := s.dropWhile (fun c => c = x) with hu
  have hne : List.rdropWhile (fun c => c = x) u ≠ [] := by
    intro hnil
    rw [hnil] at h
    simp at h
  have hlast := List.rdropWhile_last_not (fun c => c = x) u hne
  rw [List.getLast?_eq_getLast _ hne] at h
  have : (List.rdropWhile (fun c => c = x) u).getLast hne = x := by
    exact Option.some.inj h
  rw [this] at hlast
  simp at hlast

theorem pyStripChar_mem {c x : Char} {s : List Char}
    (h : c ∈ pyStripChar x s) : c ∈ s := by
  rw [pyStripChar_eq_rdrop] at h
  have h1 : c ∈ s.dropWhile (fun a => a = x) :=
    (List.rdropWhile_prefix _ _).sublist.mem h
  exact (List.dropWhile_sublist _).mem h1

theorem pyReplaceChar_cons (a : Char) (r : List Char) (x : Char) (t : List Char) :
    pyReplaceChar a r (x :: t) = (if x = a then r else [x]) ++ pyReplaceChar a r t := rfl

theorem pyReplaceChar_mem {c a : Char} {r s : List Char}
    (hc : c ∈ s) (hne : c ≠ a) : c ∈ pyReplaceChar a r s := by
  induction s with
  | nil => simp at hc
  | cons x t ih =>
    rw [pyReplaceChar_cons]
    rcases List.mem_cons.mp hc with rfl | hct
    · rw [if_neg hne]
      exact List.mem_append_left _ (by simp)
    · exact List.mem_append_right _ (ih hct)

/-! Claim C9: the file-name sanitizer. -/

/-- Claim C9, amended: safe produces only alphanumerics (in the Unicode
sense of Python isalnum, which keeps umlauts), underscore and hyphen, with
no leading or trailing underscore; non-alphanumeric characters other than
underscore and hyphen, such as a slash or a space, become underscores,
while an umlaut is kept unchanged rather than replaced. -/
theorem claim_C9_amended :
    (∀ s : String, ∀ c ∈ (safe s).data, pyIsAlnum c = true ∨ c = '_' ∨ c = '-')
  ∧ (∀ s : String, (safe s).data.head? ≠ some '_' ∧ (safe s).data.getLast? ≠ some '_')
  ∧ safe "a/b c" = "a_b_c" ∧ safe "Müller" = "Müller" := by
  refine ⟨?_, ?_, by decide, by decide⟩
  · intro s c hc
    have hm : c ∈ s.data.map
        (fun c => if pyIsAlnum c || c = '_' || c = '-' then c else '_') :=
      pyStripChar_mem hc
    rcases List.mem_map.mp hm with ⟨x, _, rfl⟩
    by_cases h : (pyIsAlnum x || x = '_' || x = '-') = true
    · rw [if_pos h]
      simpa [or_assoc] using h
    · rw [if_neg h]
      right; left; rfl
  · intro s
    exact ⟨pyStripChar_head? _ _, pyStripChar_getLast? _ _⟩

/-- Witness for claim C9: the amended theorem applied to a concrete donor
name, with every hypothesis discharged by evaluation. -/
theorem claim_C9_amended_witness :
    pyIsAlnum 'a' = true ∨ 'a' = '_' ∨ 'a' = '-' :=
  claim_C9_amended.1 "ab" 'a' (by decide)

/-- Counterexample for claim C9 as stated: an umlaut is alphanumeric for
Python, so it is kept, not replaced by an underscore. -/
theorem claim_C9_counterexample :
    safe "Bär" = "Bär" ∧ ("Bär" : String) ≠ "B_r" := by
  constructor
  · decide
  · decide

/-! Claim C10: the date component of the single-receipt file name. -/

/-- Claim C10: in the single-receipt file name the donation date is taken
raw with only points turned into hyphens and is not sanitized, so any
character of the raw date other than a point (a slash, a space) appears
verbatim in the file name. -/
theorem claim_C10 :
    (∀ n v d : String, ∀ c ∈ d.data, c ≠ '.' → c ∈ (singleFname n v d).data)
  ∧ singleFname "Müller" "Ann a" "15/06 2024" = "Müller_Ann_a_15/06 2024.tex" := by
  refine ⟨?_, by decide⟩
  intro n v d c hc hdot
  have hrep : c ∈ pyReplaceChar '.' ['-'] d.data := pyReplaceChar_mem hc hdot
  show c ∈ (safe n).data ++ '_' :: (safe v).data ++ '_' ::
    pyReplaceChar '.' ['-'] d.data ++ ".tex".data
  simp only [List.mem_append, List.mem_cons]
  tauto

/-- Witness for claim C10: the theorem applied to a concrete slash-bearing
date, hypotheses discharged by evaluation. -/
theorem claim_C10_witness :
    '/' ∈ (singleFname "A" "B" "1/2").data :=
  claim_C10.1 "A" "B" "1/2" '/' (by decide) (by decide)

/-! Digit and rendering helper lemmas. -/

theorem char_isDigit_bounds {c : Char} (h : c.isDigit = true) :
    48 ≤ c.toNat ∧ c.toNat ≤ 57 := by
  simp only [Char.isDigit, Bool.and_eq_true, decide_eq_true_eq, UInt32.le_def] at h
  exact h

theorem char_ofNat_digit {k : Nat} (h : k < 10) : (Char.ofNat (48 + k)).isDigit = true := by
  interval_cases k <;> decide

theorem char_digit_eq_ofNat {c : Char} (h : c.isDigit = true) :
    c = Char.ofNat (48 + (c.toNat - 48)) := by
  obtain ⟨h1, _⟩ := char_isDigit_bounds h
  have e : 48 + (c.toNat - 48) = c.toNat := by omega
  rw [e, Char.ofNat_toNat]

theorem char_digit_ne_special {c : Char} (h : c.isDigit = true) :
    c ≠ ',' ∧ c ≠ '.' ∧ c ≠ '-' ∧ c ≠ '+' ∧ c.isWhitespace = false := by
  obtain ⟨h1, h2⟩ := char_isDigit_bounds h
  refine ⟨?_, ?_, ?_, ?_, ?_⟩
  · intro he; rw [he] at h1; simp at h1
  · intro he; rw [he] at h1; simp at h1
  · intro he; rw [he] at h1; simp at h1
  · intro he; rw [he] at h1; simp at h1
  · simp only [Char.isWhitespace]
    have hs : c ≠ ' ' := by intro he; rw [he] at h1; simp at h1
    have ht : c ≠ '\t' := by intro he; rw [he] at h1; simp at h1
    have hr : c ≠ '\x0d' := by intro he; rw [he] at h1; simp at h1
    have hn : c ≠ '\n' := by intro he; rw [he] at h1; simp at h1
    simp [hs, ht, hr, hn]

theorem renderNatAux_zero : ∀ (f : Nat) (acc : List Char), renderNatAux f 0 acc = acc := by
  intro f acc
  cases f with
  | zero => rfl
  | succ g => simp [renderNatAux]

theorem renderNatAux_small {n : Nat} (f : Nat) (acc : List Char)
    (h1 : n ≠ 0) (h2 : n < 10) :
    renderNatAux (f + 1) n acc = Char.ofNat (48 + n) :: acc := by
  rw [renderNatAux, if_neg h1]
  have hd : n / 10 = 0 := Nat.div_eq_of_lt h2
  have hm : n % 10 = n := Nat.mod_eq_of_lt h2
  rw [hd, hm, renderNatAux_zero]

theorem decimalRender_small {n : Nat} (h : n < 10) :
    decimalRender n = [Char.ofNat (48 + n)] := by
  by_cases h0 : n = 0
  · subst h0; decide
  · rw [decimalRender, if_neg h0]
    obtain ⟨f, rfl⟩ : ∃ f, n = f + 1 := ⟨n - 1, by omega⟩
    exact renderNatAux_small f [] h0 h

theorem renderNatAux_two {n : Nat} (f : Nat) (acc : List Char)
    (h1 : 10 ≤ n) (h2 : n < 100) :
    renderNatAux (f + 2) n acc =
      Char.ofNat (48 + n / 10) :: Char.ofNat (48 + n % 10) :: acc := by
  rw [renderNatAux, if_neg (by omega)]
  exact renderNatAux_small f _ (by omega) (by omega)

theorem decimalRender_two {n : Nat} (h1 : 10 ≤ n) (h2 : n < 100) :
    decimalRender n = [Char.ofNat (48 + n / 10), Char.ofNat (48 + n % 10)] := by
  rw [decimalRender, if_neg (by omega)]
  obtain ⟨f, rfl⟩ : ∃ f, n = f + 2 := ⟨n - 2, by omega⟩
  exact renderNatAux_two f [] h1 h2

theorem renderNatAux_digits :
    ∀ (f n : Nat) (acc : List Char), (∀ c ∈ acc, c.isDigit = true) →
      ∀ c ∈ renderNatAux f n acc, c.isDigit = true := by
  intro f
  induction f with
  | zero => intro n acc hacc c hc; exact hacc c hc
  | succ g ih =>
    intro n acc hacc c hc
    rw [renderNatAux] at hc
    by_cases h0 : n = 0
    · rw [if_pos h0] at hc; exact hacc c hc
    · rw [if_neg h0] at hc
      refine ih (n / 10) _ ?_ c hc
      intro x hx
      rcases List.mem_cons.mp hx with rfl | hx2
      · exact char_ofNat_digit (by omega)
      · exact hacc x hx2

theorem decimalRender_digits (n : Nat) : ∀ c ∈ decimalRender n, c.isDigit = true := by
  intro c hc
  rw [decimalRender] at hc
  by_cases h0 : n = 0
  · rw [if_pos h0] at hc
    simp only [List.mem_singleton] at hc
    subst hc; decide
  · rw [if_neg h0] at hc
    exact renderNatAux_digits n n [] (by simp) c hc

theorem pad2_exists {n : Nat} (h : n < 100) :
    ∃ c1 c2, pad2 n = [c1, c2] ∧ c1.isDigit = true ∧ c2.isDigit = true := by
  by_cases hs : n < 10
  · refine ⟨'0', Char.ofNat (48 + n), ?_, by decide, char_ofNat_digit hs⟩
    rw [pad2, if_pos hs, decimalRender_small hs]
  · refine ⟨Char.ofNat (48 + n / 10), Char.ofNat (48 + n % 10), ?_, ?_, ?_⟩
    · rw [pad2, if_neg hs, decimalRender_two (by omega) h]
    · exact char_ofNat_digit (by omega)
    · exact char_ofNat_digit (by omega)

theorem pyReplaceChar_append (a : Char) (r s t : List Char) :
    pyReplaceChar a r (s ++ t) = pyReplaceChar a r s ++ pyReplaceChar a r t := by
  induction s with
  | nil => rfl
  | cons x xs ih =>
    simp only [List.cons_append, pyReplaceChar_cons, ih, List.append_assoc]

theorem pyReplaceChar_eq_self {a : Char} {s : List Char} (r : List Char)
    (h : ∀ c ∈ s, c ≠ a) : pyReplaceChar a r s = s := by
  induction s with
  | nil => rfl
  | cons x xs ih =>
    rw [pyReplaceChar_cons, if_neg (h x (by simp))]
    have := ih (fun c hc => h c (by simp [hc]))
    rw [this]
    rfl

/-! Claim C8: the subunit clause is omitted exactly for a zero subunit. -/

theorem amountParts_cent_len {s : String} {e c : List Char}
    (h : amountParts s = some (e, c)) : c.length = 2 := by
  simp only [amountParts] at h
  split at h
  · split at h
    · simp only [Option.some.injEq, Prod.mk.injEq] at h
      obtain ⟨_, rfl⟩ := h
      simp only [List.length_take, List.length_append, List.length_cons, List.length_nil]
      omega
    · exact absurd h (by simp)
  · simp only [Option.some.injEq, Prod.mk.injEq] at h
    obtain ⟨_, rfl⟩ := h
    rfl

/-- Claim C8: in both words paths the und-NN/100 clause appears exactly when
the cent part is nonzero; 100,00 parses to a 00 cent field and cents 0,
while 100,05 parses to an 05 cent field and cents 5. -/
theorem claim_C8 :
    (∀ (n2w : Int → Option String) (s : String) (e c : List Char) (n : Int) (w : String),
      amountParts s = some (e, c) → pyInt e = some n → n2w n = some w →
      amount_to_words n2w s = some (String.mk (pyCapitalize w.data ++
        (if c = ['0', '0'] then " Euro".data
         else " Euro und ".data ++ c ++ "/100".data))))
  ∧ (∀ (n2w : Int → Option String) (dec : Dec) (w : String),
      n2w (euroPartOf dec) = some w →
      amount_decimal_to_words n2w dec = some (String.mk (pyCapitalize w.data ++
        (if centPartOf dec = 0 then " Euro".data
         else " Euro und ".data ++ pyFormat02 (centPartOf dec) ++ "/100".data))))
  ∧ amountParts "100,00" = some ("100".data, ['0', '0'])
  ∧ amountParts "100,05" = some ("100".data, ['0', '5'])
  ∧ centPartOf ⟨10000, 2⟩ = 0 ∧ centPartOf ⟨10005, 2⟩ = 5 := by
  refine ⟨?_, ?_, by decide, by decide, by decide, by decide⟩
  · intro n2w s e c n w h1 h2 h3
    have hlen := amountParts_cent_len h1
    have hne : c ≠ [] := by intro h0; rw [h0] at hlen; simp at hlen
    rw [amount_to_words, h1]
    simp only [h2, h3]
    by_cases hc : c = ['0', '0']
    · rw [if_pos hc, if_neg (by simp [hc])]
    · rw [if_neg hc, if_pos ⟨hne, hc⟩]
  · intro n2w dec w h
    rw [amount_decimal_to_words, h]
    by_cases hc : centPartOf dec = 0
    · rw [if_pos hc, if_neg (by simp [hc])]
    · rw [if_neg hc, if_pos hc]

/-- Witness for claim C8: the theorem applied to the concrete amount 100,05
and a concrete words collaborator. -/
theorem claim_C8_witness :
    amount_to_words n2wConst "100,05" = some "X Euro und 05/100" := by
  rw [claim_C8.1 n2wConst "100,05" "100".data ['0', '5'] 100 "x"
    (by decide) (by decide) rfl]
  decide

/-! Claim C2: exact decimal summation and the display of the total. -/

theorem consFold_total (items : List Record) :
    ∀ acc : ConsAcc, (items.foldl consStep acc).total =
      items.foldl (fun t r => decAdd t (parseAmountDec r.betrag)) acc.total := by
  induction items with
  | nil => intro acc; rfl
  | cons a t ih => intro acc; exact ih (consStep acc a)

theorem formatDec2_shape (dec : Dec) :
    ∃ pre c1 c2,
      pyReplaceChar '.' [','] (formatDec2 dec) = pre ++ [',', c1, c2]
      ∧ c1.isDigit = true ∧ c2.isDigit = true ∧ ',' ∉ pre := by
  have shape : ∀ (n : Nat), ∃ c1 c2,
      pyReplaceChar '.' [','] (decimalRender (n / 100) ++ '.' :: pad2 (n % 100)) =
        decimalRender (n / 100) ++ [',', c1, c2]
      ∧ c1.isDigit = true ∧ c2.isDigit = true := by
    intro n
    obtain ⟨c1, c2, hp, h1, h2⟩ := pad2_exists (show n % 100 < 100 by omega)
    have hd1 : pyReplaceChar '.' [','] (decimalRender (n / 100)) = decimalRender (n / 100) :=
      pyReplaceChar_eq_self _
        (fun c hc => (char_digit_ne_special (decimalRender_digits _ c hc)).2.1)
    have hd2 : pyReplaceChar '.' [','] (pad2 (n % 100)) = pad2 (n % 100) := by
      rw [hp]
      refine pyReplaceChar_eq_self _ ?_
      intro c hc
      rcases List.mem_cons.mp hc with rfl | hc2
      · exact (char_digit_ne_special h1).2.1
      rcases List.mem_cons.mp hc2 with rfl | hc3
      · exact (char_digit_ne_special h2).2.1
      · simp at hc3
    refine ⟨c1, c2, ?_, h1, h2⟩
    rw [pyReplaceChar_append, hd1, pyReplaceChar_cons, if_pos rfl, hd2, hp]
    rfl
  have hnotc : ∀ (m : Nat), ',' ∉ decimalRender m := by
    intro m hmem
    exact (char_digit_ne_special (decimalRender_digits m ',' hmem)).1 rfl
  rw [formatDec2]
  split
  · obtain ⟨c1, c2, he, h1, h2⟩ := shape ((-totalCentsOf dec).toNat)
    refine ⟨'-' :: decimalRender ((-totalCentsOf dec).toNat / 100), c1, c2, ?_, h1, h2, ?_⟩
    · rw [pyReplaceChar_cons, if_neg (by decide), he]
      rfl
    · intro hmem
      rcases List.mem_cons.mp hmem with he2 | hmem2
      · exact absurd he2.symm (by decide)
      · exact hnotc _ hmem2
  · obtain ⟨c1, c2, he, h1, h2⟩ := shape ((totalCentsOf dec).toNat)
    exact ⟨decimalRender ((totalCentsOf dec).toNat / 100), c1, c2, he, h1, h2, hnotc _⟩

/-- Claim C2: the consolidated total is the exact in-order decimal sum of
the group amounts (a failed parse contributing exactly zero, inside
parseAmountDec), the display has a comma and exactly two fractional digits,
and the spec example 10,00 + 20,50 + 0,00 displays as exactly 30,50. -/
theorem claim_C2 :
    (∀ items : List Record,
      (consFold items).total = specExactSum (items.map (fun r => r.betrag)))
  ∧ (∀ dec : Dec, ∃ pre c1 c2,
      pyReplaceChar '.' [','] (formatDec2 dec) = pre ++ [',', c1, c2]
      ∧ c1.isDigit = true ∧ c2.isDigit = true ∧ ',' ∉ pre)
  ∧ pyReplaceChar '.' [','] (formatDec2 (consFold
      [⟨"S", "A", "", "", "", "10,00", "01.01.2024"⟩,
       ⟨"S", "A", "", "", "", "20,50", "02.01.2024"⟩,
       ⟨"S", "A", "", "", "", "0,00", "03.01.2024"⟩]).total) = "30,50".data := by
  refine ⟨?_, formatDec2_shape, by decide⟩
  intro items
  rw [consFold, consFold_total, specExactSum, List.foldl_map]

/-! Claim C3: the consolidated receipt-year derivation. -/

/-- Claim C3 evaluated on the code: a consolidated group whose
chronologically last record has the supported ISO date 2024-06-15 makes
the consolidated path raise (the year is re-parsed from the raw date
string strictly as DD.MM.YYYY), so an exception does propagate out of a
donor group; the single-receipt path, by contrast, never raises. -/
theorem claim_C3_code_evaluation :
    parse_date "2024-06-15" = some ⟨2024, 6, 15⟩
  ∧ processGroup n2wConst "" "" "05.12.2025"
      [⟨"Schmidt", "Anna", "Hauptstr. 1", "", "12345 Berlin", "50,00", "01.03.2024"⟩,
       ⟨"Schmidt", "Anna", "Hauptstr. 1", "", "12345 Berlin", "75,25", "2024-06-15"⟩] =
      Except.error "ValueError"
  ∧ (∀ (n2w : Int → Option String) (tS tC ausst : String) (it : Record),
      ∃ doc, processGroup n2w tS tC ausst [it] = Except.ok doc) := by
  refine ⟨rfl, rfl, ?_⟩
  intro n2w tS tC ausst it
  exact ⟨_, rfl⟩

/-! Claim C4: the pre-flight diagnostics and the exit status. -/

theorem runAll_ne_earlyExit (n2w : Int → Option String) (tS tC ausst : String)
    (groups : List ((String × String) × List Record)) (msg : String) (code : Nat) :
    runAll n2w tS tC ausst groups ≠ MainOutcome.earlyExit msg code := by
  rw [runAll]
  split <;> simp

/-- Counterexample for claim C4 as stated: with the input file missing, the
program prints the diagnostic and returns normally, so the exit status is
0, not non-zero. -/
theorem claim_C4_counterexample :
    ¬ ∃ (msg : String) (code : Nat),
      mainModel n2wConst "t1" "t2" ⟨false, true, true, none, "01.01.2025", []⟩ =
        MainOutcome.earlyExit msg code ∧ code ≠ 0 := by
  rintro ⟨msg, code, heq, hne⟩
  have h0 : mainModel n2wConst "t1" "t2" ⟨false, true, true, none, "01.01.2025", []⟩ =
      MainOutcome.earlyExit "CSV nicht gefunden" 0 := rfl
  rw [h0] at heq
  injection heq with h1 h2
  exact hne h2.symm

/-- Claim C4, amended: when the input file is missing, either template is
missing, or an explicit issue date fails to parse, the program prints a
diagnostic and returns early, producing no documents, with exit status
zero (a plain return from main), not a non-zero status. -/
theorem claim_C4_amended :
    ∀ (n2w : Int → Option String) (tS tC : String) (env : Env),
      (env.csvExists = false →
        mainModel n2w tS tC env = MainOutcome.earlyExit "CSV nicht gefunden" 0)
    ∧ (env.csvExists = true → env.templateExists = false →
        mainModel n2w tS tC env = MainOutcome.earlyExit "Einzel-Template nicht gefunden" 0)
    ∧ (env.csvExists = true → env.templateExists = true → env.collectiveExists = false →
        mainModel n2w tS tC env = MainOutcome.earlyExit "Sammel-Template nicht gefunden" 0)
    ∧ (∀ s, env.csvExists = true → env.templateExists = true →
        env.collectiveExists = true → env.ausstellungsdatumArg = some s →
        parse_date s = none →
        mainModel n2w tS tC env = MainOutcome.earlyExit
          "Ungültiges Ausstellungsdatum. Erwartetes Format: DD.MM.YYYY oder YYYY-MM-DD" 0)
    ∧ (∀ msg code, mainModel n2w tS tC env = MainOutcome.earlyExit msg code →
        docsOf (mainModel n2w tS tC env) = [] ∧ code = 0) := by
  intro n2w tS tC env
  refine ⟨?_, ?_, ?_, ?_, ?_⟩
  · intro h; simp [mainModel, h]
  · intro h1 h2; simp [mainModel, h1, h2]
  · intro h1 h2 h3; simp [mainModel, h1, h2, h3]
  · intro s h1 h2 h3 h4 h5; simp [mainModel, h1, h2, h3, h4, h5]
  · intro msg code heq
    refine ⟨by rw [heq]; rfl, ?_⟩
    revert heq
    rw [mainModel]
    by_cases h1 : env.csvExists = false
    · rw [if_pos h1]; intro heq; injection heq with e1 e2; omega
    · rw [if_neg h1]
      by_cases h2 : env.templateExists = false
      · rw [if_pos h2]; intro heq; injection heq with e1 e2; omega
      · rw [if_neg h2]
        by_cases h3 : env.collectiveExists = false
        · rw [if_pos h3]; intro heq; injection heq with e1 e2; omega
        · rw [if_neg h3]
          cases harg : env.ausstellungsdatumArg with
          | none =>
            intro heq
            dsimp only at heq
            exact absurd heq (runAll_ne_earlyExit _ _ _ _ _ _ _)
          | some s =>
            cases hpd : parse_date s with
            | none =>
              intro heq
              dsimp only at heq
              rw [hpd] at heq
              injection heq with e1 e2
              omega
            | some dt =>
              intro heq
              dsimp only at heq
              rw [hpd] at heq
              exact absurd heq (runAll_ne_earlyExit _ _ _ _ _ _ _)

/-- Witness for claim C4: the amended theorem applied to a concrete
environment with a missing single-receipt template. -/
theorem claim_C4_amended_witness :
    mainModel n2wConst "a" "b" ⟨true, false, true, none, "01.01.2025", []⟩ =
      MainOutcome.earlyExit "Einzel-Template nicht gefunden" 0 :=
  (claim_C4_amended n2wConst "a" "b"
    ⟨true, false, true, none, "01.01.2025", []⟩).2.1 rfl rfl

/-! Claim C5: the fallback when rendering the words-form fails. -/

/-- Counterexample for claim C5 as stated: on the consolidated path a
failed words rendering sets the words field to the empty string, not to
the raw numeric string of the total (which is 30,50 here). -/
theorem claim_C5_counterexample :
    (processGroup n2wNone "" "" "05.12.2025"
      [⟨"S", "A", "x", "", "y", "10,00", "01.01.2024"⟩,
       ⟨"S", "A", "x", "", "y", "20,50", "02.01.2024"⟩]).toOption.map
      (fun d => (List.lookup "GESAMTBETRAGSWORTE" d.ctx,
                 List.lookup "BETRAGZIFFERN" d.ctx)) =
      some (some "", some "30,50")
  ∧ ("" : String) ≠ "30,50" := by
  constructor
  · rfl
  · decide

/-- Claim C5, amended: when rendering the words-form fails, the document is
still produced; on the single-receipt path the words field falls back to
the raw amount string, while on the consolidated path it falls back to the
empty string. -/
theorem claim_C5_amended :
    (∀ (n2w : Int → Option String) (tS tC ausst : String) (it : Record),
      amount_to_words n2w it.betrag = none →
      processGroup n2w tS tC ausst [it] = Except.ok
        ⟨singleFname it.nachname it.vorname it.spendendatum, singleCtx n2w ausst it,
          String.mk (substAll (singleCtx n2w ausst it) tS.data)⟩
      ∧ List.lookup "BETRAGBUCHSTABEN" (singleCtx n2w ausst it) = some it.betrag)
  ∧ (∀ (n2w : Int → Option String) (tS tC ausst : String) (a b : Record)
      (rest : List Record) (lastIt : Record) (year : PyDate),
      (pySortByDate (a :: b :: rest)).getLast? = some lastIt →
      strptimeDMY lastIt.spendendatum = some year →
      amount_decimal_to_words n2w (consFold (pySortByDate (a :: b :: rest))).total = none →
      ∃ doc, processGroup n2w tS tC ausst (a :: b :: rest) = Except.ok doc
        ∧ List.lookup "GESAMTBETRAGSWORTE" doc.ctx = some "") := by
  constructor
  · intro n2w tS tC ausst it h
    refine ⟨rfl, ?_⟩
    simp [singleCtx, List.lookup, h]
  · intro n2w tS tC ausst a b rest lastIt year h1 h2 h3
    rw [processGroup]
    cases hhead : (pySortByDate (a :: b :: rest)).head? with
    | none =>
      exact absurd hhead (by
        intro hh
        have : pySortByDate (a :: b :: rest) = [] := List.head?_eq_none_iff.mp hh
        rw [this] at h1
        simp at h1)
    | some firstSorted =>
      simp only [h1, h2, hhead]
      refine ⟨_, rfl, ?_⟩
      simp [consCtx, List.lookup, h3]

/-- Witness for claim C5: the amended theorem applied to a concrete single
record with an unparseable amount, hypotheses discharged by evaluation. -/
theorem claim_C5_amended_witness :
    List.lookup "BETRAGBUCHSTABEN"
      (singleCtx n2wConst "05.12.2025" ⟨"S", "A", "x", "", "y", "abc", "01.01.2024"⟩) =
      some "abc" :=
  (claim_C5_amended.1 n2wConst "" "" "05.12.2025"
    ⟨"S", "A", "x", "", "y", "abc", "01.01.2024"⟩ (by rfl)).2

/-! Claim C6: token substitution. -/

theorem pyReplaceF_eq_pyReplace :
    ∀ (f : Nat) (s p r : List Char), s.length ≤ f → pyReplaceF f s p r = pyReplace s p r := by
  intro f
  induction f using Nat.strong_induction_on with
  | _ f ih =>
    intro s p r hlen
    cases p with
    | nil =>
      have h1 : ∀ (g : Nat) (u v : List Char),
          pyReplaceF g u [] v = v ++ u.foldr (fun c acc => c :: (v ++ acc)) [] := by
        intro g u v
        cases g <;> cases u <;> rfl
      rw [h1, pyReplace, h1]
    | cons q ps =>
      cases s with
      | nil =>
        cases f with
        | zero => rfl
        | succ g => rfl
      | cons c s2 =>
        cases f with
        | zero => simp at hlen
        | succ g =>
          have hlen2 : s2.length ≤ g := by
            simp only [List.length_cons] at hlen
            omega
          have hstep1 : pyReplaceF (g + 1) (c :: s2) (q :: ps) r =
              if (q :: ps).isPrefixOf (c :: s2) then
                r ++ pyReplaceF g ((c :: s2).drop (q :: ps).length) (q :: ps) r
              else c :: pyReplaceF g s2 (q :: ps) r := rfl
          have hstep2 : pyReplace (c :: s2) (q :: ps) r =
              if (q :: ps).isPrefixOf (c :: s2) then
                r ++ pyReplaceF s2.length ((c :: s2).drop (q :: ps).length) (q :: ps) r
              else c :: pyReplaceF s2.length s2 (q :: ps) r := rfl
          rw [hstep1, hstep2]
          have hdrop : ((c :: s2).drop (q :: ps).length).length ≤ s2.length := by
            simp only [List.length_drop, List.length_cons]
            omega
          by_cases hpre : (q :: ps).isPrefixOf (c :: s2)
          · rw [if_pos hpre, if_pos hpre]
            rw [ih g (by omega) _ _ _ (le_trans hdrop hlen2)]
            rw [ih s2.length (by omega) _ _ _ hdrop]
          · rw [if_neg hpre, if_neg hpre]
            rw [ih g (by omega) s2 (q :: ps) r hlen2]
            rw [ih s2.length (by omega) s2 (q :: ps) r le_rfl]

theorem pyReplace_cons (c : Char) (s : List Char) (q : Char) (ps r : List Char) :
    pyReplace (c :: s) (q :: ps) r =
      if (q :: ps).isPrefixOf (c :: s) then
        r ++ pyReplace ((c :: s).drop (q :: ps).length) (q :: ps) r
      else c :: pyReplace s (q :: ps) r := by
  have hstep : pyReplace (c :: s) (q :: ps) r =
      if (q :: ps).isPrefixOf (c :: s) then
        r ++ pyReplaceF s.length ((c :: s).drop (q :: ps).length) (q :: ps) r
      else c :: pyReplaceF s.length s (q :: ps) r := rfl
  rw [hstep]
  have hdrop : ((c :: s).drop (q :: ps).length).length ≤ s.length := by
    simp only [List.length_drop, List.length_cons]
    omega
  by_cases hpre : (q :: ps).isPrefixOf (c :: s)
  · rw [if_pos hpre, if_pos hpre, pyReplaceF_eq_pyReplace s.length _ _ _ hdrop]
  · rw [if_neg hpre, if_neg hpre, pyReplaceF_eq_pyReplace s.length s _ _ le_rfl]

theorem pyReplace_of_no_occurrence : ∀ {s p r : List Char}, ¬ (p <:+: s) → pyReplace s p r = s := by
  intro s
  induction s with
  | nil =>
    intro p r h
    cases p with
    | nil => exact absurd List.nil_infix h
    | cons q ps => rfl
  | cons c t ih =>
    intro p r h
    cases p with
    | nil => exact absurd List.nil_infix h
    | cons q ps =>
      rw [pyReplace_cons]
      have hpre : ¬ ((q :: ps).isPrefixOf (c :: t) = true) := by
        intro hb
        exact h (List.isPrefixOf_iff_prefix.mp hb).isInfix
      rw [if_neg hpre]
      have ht : ¬ ((q :: ps) <:+: t) := fun hinf => h (List.infix_cons hinf)
      rw [ih ht]

theorem substAll_of_no_key :
    ∀ (ctx : List (String × String)) (t : List Char),
      (∀ kv ∈ ctx, ¬ (kv.1.data <:+: t)) → substAll ctx t = t := by
  intro ctx
  induction ctx with
  | nil => intro t _; rfl
  | cons kv ctx ih =>
    intro t h
    show substAll ctx (pyReplace t kv.1.data kv.2.data) = t
    rw [pyReplace_of_no_occurrence (h kv (by simp))]
    exact ih t (fun x hx => h x (by simp [hx]))

/-- Counterexample for claim C6 as stated: substitution is a sequential
replace in context order, so the result depends on the processing order
when one key occurs in the value of another. -/
theorem claim_C6_counterexample :
    substAll [("A", "B"), ("B", "C")] "A".data = "C".data
  ∧ substAll [("B", "C"), ("A", "B")] "A".data = "B".data
  ∧ substAll [("A", "B"), ("B", "C")] "A".data ≠
      substAll [("B", "C"), ("A", "B")] "A".data := by
  exact ⟨by decide, by decide, by decide⟩

/-- Claim C6, amended: token substitution is a sequential whole-text
replace of each context key by its value, in context order; every
occurrence of a key is replaced at its step, and a template containing no
context key at all is left untouched; the result can depend on the
processing order when a key occurs in the value of another key. -/
theorem claim_C6_amended :
    (∀ (ctx : List (String × String)) (t : List Char),
      (∀ kv ∈ ctx, ¬ (kv.1.data <:+: t)) → substAll ctx t = t)
  ∧ pyReplace "KaK".data "K".data "x".data = "xax".data
  ∧ substAll [("K", "x"), ("Z", "w")] "KaK".data = "xax".data := by
  exact ⟨substAll_of_no_key, by decide, by decide⟩

/-- Witness for claim C6: the amended theorem applied to a concrete
template without tokens, hypotheses discharged by evaluation. -/
theorem claim_C6_amended_witness :
    substAll [("BETRAGZIFFERN", "30,50")] "kein Token".data = "kein Token".data :=
  claim_C6_amended.1 [("BETRAGZIFFERN", "30,50")] "kein Token".data (by decide)

/-! Claim C7: the consolidated sort. -/

theorem insSorted_perm {α : Type} (key : α → Nat) :
    ∀ (l : List α) (a : α), (insSorted key l a).Perm (a :: l) := by
  intro l
  induction l with
  | nil => intro a; exact List.Perm.refl _
  | cons b t ih =>
    intro a
    rw [insSorted]
    by_cases hle : key b ≤ key a
    · rw [if_pos hle]
      exact ((ih a).cons b).trans (List.Perm.swap a b t)
    · rw [if_neg hle]

theorem insSorted_sorted {α : Type} (key : α → Nat) :
    ∀ (l : List α) (a : α),
      List.Pairwise (fun x y => key x ≤ key y) l →
      List.Pairwise (fun x y => key x ≤ key y) (insSorted key l a) := by
  intro l
  induction l with
  | nil => intro a _; simp [insSorted]
  | cons b t ih =>
    intro a hp
    rw [List.pairwise_cons] at hp
    obtain ⟨hb, ht⟩ := hp
    rw [insSorted]
    by_cases hle : key b ≤ key a
    · rw [if_pos hle]
      rw [List.pairwise_cons]
      refine ⟨?_, ih a ht⟩
      intro x hx
      rw [(insSorted_perm key t a).mem_iff] at hx
      rcases List.mem_cons.mp hx with rfl | hxt
      · exact hle
      · exact hb x hxt
    · rw [if_neg hle]
      have hlt : key a ≤ key b := Nat.le_of_lt (Nat.not_le.mp hle)
      rw [List.pairwise_cons]
      refine ⟨?_, by rw [List.pairwise_cons]; exact ⟨hb, ht⟩⟩
      intro x hx
      rcases List.mem_cons.mp hx with rfl | hxt
      · exact hlt
      · exact le_trans hlt (hb x hxt)

theorem sortAux_perm {α : Type} (key : α → Nat) :
    ∀ (l acc : List α), (sortAux key acc l).Perm (acc ++ l) := by
  intro l
  induction l with
  | nil => intro acc; simp [sortAux]
  | cons a t ih =>
    intro acc
    rw [sortAux]
    refine (ih (insSorted key acc a)).trans ?_
    refine (List.Perm.append_right t (insSorted_perm key acc a)).trans ?_
    exact List.perm_middle.symm

theorem sortAux_sorted {α : Type} (key : α → Nat) :
    ∀ (l acc : List α),
      List.Pairwise (fun x y => key x ≤ key y) acc →
      List.Pairwise (fun x y => key x ≤ key y) (sortAux key acc l) := by
  intro l
  induction l with
  | nil => intro acc h; exact h
  | cons a t ih =>
    intro acc h
    rw [sortAux]
    exact ih _ (insSorted_sorted key acc a h)

theorem filter_insSorted {α : Type} (key : α → Nat) (k : Nat) :
    ∀ (l : List α) (a : α),
      List.Pairwise (fun x y => key x ≤ key y) l →
      (insSorted key l a).filter (fun x => key x == k) =
        if key a == k then l.filter (fun x => key x == k) ++ [a]
        else l.filter (fun x => key x == k) := by
  intro l
  induction l with
  | nil =>
    intro a _
    by_cases hak : key a = k
    · simp [insSorted, List.filter_cons, hak]
    · simp [insSorted, List.filter_cons, hak]
  | cons b t ih =>
    intro a hp
    rw [List.pairwise_cons] at hp
    obtain ⟨hb, ht⟩ := hp
    rw [insSorted]
    by_cases hle : key b ≤ key a
    · rw [if_pos hle]
      rw [List.filter_cons, List.filter_cons, ih a ht]
      by_cases hak : key a = k <;> by_cases hbk : key b = k <;> simp [hak, hbk]
    · rw [if_neg hle]
      have hlt : key a < key b := Nat.not_le.mp hle
      by_cases hak : key a = k
      · have hnil : (b :: t).filter (fun x => key x == k) = [] := by
          rw [List.filter_eq_nil_iff]
          intro x hx
          have hge : key b ≤ key x := by
            rcases List.mem_cons.mp hx with rfl | hxt
            · exact le_rfl
            · exact hb x hxt
          simp only [beq_iff_eq]
          omega
        rw [List.filter_cons]
        simp [hak, hnil]
      · rw [List.filter_cons]
        simp [hak]

theorem filter_sortAux {α : Type} (key : α → Nat) (k : Nat) :
    ∀ (l acc : List α),
      List.Pairwise (fun x y => key x ≤ key y) acc →
      (sortAux key acc l).filter (fun x => key x == k) =
        acc.filter (fun x => key x == k) ++ l.filter (fun x => key x == k) := by
  intro l
  induction l with
  | nil => intro acc _; simp [sortAux]
  | cons a t ih =>
    intro acc h
    rw [sortAux, ih _ (insSorted_sorted key acc a h), filter_insSorted key k acc a h]
    rw [List.filter_cons]
    by_cases hak : key a = k
    · simp [hak]
    · simp [hak]

theorem sortByKey_filter {α : Type} (key : α → Nat) (k : Nat) (l : List α) :
    (sortByKey key l).filter (fun x => key x == k) = l.filter (fun x => key x == k) := by
  rw [sortByKey, filter_sortAux key k l [] (by simp)]
  rfl

theorem mkValidDate_inv {y m dd : Nat} {d : PyDate}
    (h : mkValidDate y m dd = some d) :
    d.y = y ∧ d.m = m ∧ d.d = dd ∧ 1 ≤ y ∧ 1 ≤ m ∧ 1 ≤ dd := by
  rw [mkValidDate] at h
  split at h
  · rename_i hcond
    injection h with h2
    subst h2
    exact ⟨rfl, rfl, rfl, hcond.1, hcond.2.2.1, hcond.2.2.2.2.1⟩
  · exact absurd h (by simp)

theorem strptimeDMY_pos {s : String} {d : PyDate}
    (h : strptimeDMY s = some d) : 1 ≤ d.y ∧ 1 ≤ d.m ∧ 1 ≤ d.d := by
  rw [strptimeDMY] at h
  split at h
  · split at h
    · split at h
      · obtain ⟨hy, hm, hd, h1, h2, h3⟩ := mkValidDate_inv h
        omega
      · exact absurd h (by simp)
    · exact absurd h (by simp)
  · exact absurd h (by simp)

theorem strptimeDMy2_pos {s : String} {d : PyDate}
    (h : strptimeDMy2 s = some d) : 1 ≤ d.y ∧ 1 ≤ d.m ∧ 1 ≤ d.d := by
  rw [strptimeDMy2] at h
  split at h
  · split at h
    · split at h
      · obtain ⟨hy, hm, hd, h1, h2, h3⟩ := mkValidDate_inv h
        omega
      · exact absurd h (by simp)
    · exact absurd h (by simp)
  · exact absurd h (by simp)

theorem strptimeYMD_pos {s : String} {d : PyDate}
    (h : strptimeYMD s = some d) : 1 ≤ d.y ∧ 1 ≤ d.m ∧ 1 ≤ d.d := by
  rw [strptimeYMD] at h
  split at h
  · split at h
    · split at h
      · obtain ⟨hy, hm, hd, h1, h2, h3⟩ := mkValidDate_inv h
        omega
      · exact absurd h (by simp)
    · exact absurd h (by simp)
  · exact absurd h (by simp)

theorem parse_date_pos {s : String} {d : PyDate}
    (h : parse_date s = some d) : 1 ≤ d.y ∧ 1 ≤ d.m ∧ 1 ≤ d.d := by
  rw [parse_date] at h
  split at h
  · rename_i h1
    injection h with h2
    subst h2
    exact strptimeDMY_pos h1
  · split at h
    · rename_i h2
      injection h with h3
      subst h3
      exact strptimeDMy2_pos h2
    · exact strptimeYMD_pos h

theorem sortKey_min (r : Record) : dateRank ⟨1, 1, 1⟩ ≤ sortKey r := by
  rw [sortKey]
  cases h : dateobj r with
  | none => exact le_rfl
  | some d =>
    obtain ⟨h1, h2, h3⟩ := parse_date_pos h
    show dateRank ⟨1, 1, 1⟩ ≤ dateRank d
    rw [dateRank, dateRank]
    simp only
    omega

/-- Claim C7: the consolidated path sorts records stably by parsed date
ascending; a record with an unparseable date gets the minimum key
(datetime.min, year 1 month 1 day 1), which is below every parseable
date, and the unparseable records keep their input order among
themselves. -/
theorem claim_C7 : ∀ items : List Record,
    (pySortByDate items).Perm items
  ∧ List.Pairwise (fun a b => sortKey a ≤ sortKey b) (pySortByDate items)
  ∧ (∀ r : Record, dateobj r = none → sortKey r = dateRank ⟨1, 1, 1⟩)
  ∧ (∀ r : Record, dateRank ⟨1, 1, 1⟩ ≤ sortKey r)
  ∧ (pySortByDate items).filter (fun r => (dateobj r).isNone) =
      items.filter (fun r => (dateobj r).isNone) := by
  intro items
  refine ⟨?_, ?_, ?_, sortKey_min, ?_⟩
  · exact (sortAux_perm sortKey items []).trans (by simp)
  · exact sortAux_sorted sortKey items [] (by simp)
  · intro r h
    rw [sortKey, h]
  · have himp : ∀ r : Record, (dateobj r).isNone = true → (sortKey r == 10101) = true := by
      intro r h
      have hn : dateobj r = none := Option.isNone_iff_eq_none.mp h
      rw [sortKey, hn]
      rfl
    have key1 : ∀ l : List Record,
        l.filter (fun r => (dateobj r).isNone) =
          (l.filter (fun r => sortKey r == 10101)).filter (fun r => (dateobj r).isNone) := by
      intro l
      rw [List.filter_filter]
      refine (List.filter_congr ?_).symm
      intro x _
      cases hx : (dateobj x).isNone
      · simp
      · simp [himp x hx]
    rw [key1, key1 items]
    have : pySortByDate items = sortByKey sortKey items := rfl
    rw [this, sortByKey_filter sortKey 10101 items]

/-- Witness for claim C7: the theorem applied to a concrete group with an
unparseable date, hypotheses discharged by evaluation. -/
theorem claim_C7_witness :
    sortKey ⟨"S", "A", "", "", "", "10,00", "kein Datum"⟩ = dateRank ⟨1, 1, 1⟩ :=
  (claim_C7 []).2.2.1 ⟨"S", "A", "", "", "", "10,00", "kein Datum"⟩ (by rfl)

/-! Claim C1: helper lemmas for the two words paths. -/

theorem mk_data (l : List Char) : (String.mk l).data = l := rfl

theorem dropWhile_eq_self_of {p : Char → Bool} {l : List Char}
    (h : ∀ c ∈ l, p c = false) : l.dropWhile p = l := by
  cases l with
  | nil => rfl
  | cons c t => rw [List.dropWhile_cons_of_neg (by simp [h c (by simp)])]

theorem pyStrip_eq_self {s : List Char}
    (h : ∀ c ∈ s, c.isWhitespace = false) : pyStrip s = s := by
  rw [pyStrip, dropWhile_eq_self_of h,
    dropWhile_eq_self_of (fun c hc => h c (List.mem_reverse.mp hc)),
    List.reverse_reverse]

theorem pySplit_no_sep {sep : Char} :
    ∀ {s : List Char}, (∀ c ∈ s, c ≠ sep) → pySplit sep s = [s] := by
  intro s
  induction s with
  | nil => intro _; rfl
  | cons c t ih =>
    intro h
    simp only [pySplit]
    rw [if_neg (h c (by simp)), ih (fun x hx => h x (by simp [hx]))]

theorem pySplit_append_sep {sep : Char} :
    ∀ {a : List Char} (b : List Char), (∀ c ∈ a, c ≠ sep) →
      pySplit sep (a ++ sep :: b) = a :: pySplit sep b := by
  intro a
  induction a with
  | nil =>
    intro b _
    simp [pySplit]
  | cons c t ih =>
    intro b h
    simp only [List.cons_append, pySplit, List.append_eq]
    rw [if_neg (h c (by simp)), ih b (fun x hx => h x (by simp [hx]))]

theorem pyInt_digits {l : List Char} (hne : l ≠ [])
    (hd : ∀ c ∈ l, c.isDigit = true) : pyInt l = some ((digitsVal l : Nat) : Int) := by
  have hs : pyStrip l = l :=
    pyStrip_eq_self (fun c hc => (char_digit_ne_special (hd c hc)).2.2.2.2)
  cases l with
  | nil => exact absurd rfl hne
  | cons c rest =>
    have hc := hd c (by simp)
    simp only [pyInt, hs]
    rw [if_neg (char_digit_ne_special hc).2.2.1, if_neg (char_digit_ne_special hc).2.2.2.1]
    rw [pyIntCore, if_pos ⟨by simp, List.all_eq_true.mpr hd⟩]
    rfl

theorem digitsVal_from :
    ∀ (b : List Char) (x : Nat),
      b.foldl (fun a c => 10 * a + (c.toNat - 48)) x = x * 10 ^ b.length + digitsVal b := by
  intro b
  induction b with
  | nil => intro x; simp [digitsVal]
  | cons c t ih =>
    intro x
    have h1 : digitsVal (c :: t) =
        (c.toNat - 48) * 10 ^ t.length + digitsVal t := by
      rw [digitsVal]
      simp only [List.foldl_cons]
      rw [ih (10 * 0 + (c.toNat - 48))]
      norm_num
    simp only [List.foldl_cons]
    rw [ih (10 * x + (c.toNat - 48)), h1]
    simp only [List.length_cons, pow_succ]
    ring

theorem digitsVal_append (a b : List Char) :
    digitsVal (a ++ b) = digitsVal a * 10 ^ b.length + digitsVal b := by
  rw [digitsVal, List.foldl_append]
  exact digitsVal_from b _

theorem digitsVal_lt : ∀ {l : List Char}, (∀ c ∈ l, c.isDigit = true) →
    digitsVal l < 10 ^ l.length := by
  intro l
  induction l with
  | nil => intro _; simp [digitsVal]
  | cons c t ih =>
    intro h
    have h1 : digitsVal (c :: t) = (c.toNat - 48) * 10 ^ t.length + digitsVal t := by
      rw [digitsVal]
      simp only [List.foldl_cons]
      rw [digitsVal_from t (10 * 0 + (c.toNat - 48))]
      norm_num
    have hd : c.toNat - 48 ≤ 9 := by
      obtain ⟨_, h2⟩ := char_isDigit_bounds (h c (by simp))
      omega
    have hA : (c.toNat - 48) * 10 ^ t.length ≤ 9 * 10 ^ t.length :=
      Nat.mul_le_mul_right _ hd
    have hB : digitsVal t < 10 ^ t.length := ih (fun x hx => h x (by simp [hx]))
    rw [h1]
    simp only [List.length_cons, pow_succ]
    omega

theorem digitsVal_one (a : Char) : digitsVal [a] = a.toNat - 48 := by
  simp [digitsVal]

theorem digitsVal_two (a b : Char) :
    digitsVal [a, b] = 10 * (a.toNat - 48) + (b.toNat - 48) := by
  simp [digitsVal]

theorem roundHalfEven_exact (k d : Int) (hd : 0 < d) : roundHalfEven (k * d) d = k := by
  rw [roundHalfEven]
  rw [Int.mul_emod_left]
  rw [if_pos (by omega : 2 * (0 : Int) < d)]
  exact Int.mul_ediv_cancel k (by omega)

theorem totalCents_mk (dI dF e : Nat) (he : e ≤ 2) :
    totalCentsOf ⟨((dI * 10 ^ e + dF : Nat) : Int), e⟩ =
      ((dI * 100 + dF * 10 ^ (2 - e) : Nat) : Int) := by
  rw [totalCentsOf]
  have hd : (0 : Int) < 10 ^ e := by positivity
  have hpow : (10 : Int) ^ (2 - e) * 10 ^ e = 100 := by
    rw [← pow_add]
    have h2 : 2 - e + e = 2 := by omega
    rw [h2]
    norm_num
  have key : ((dI * 10 ^ e + dF : Nat) : Int) * 100 =
      ((dI * 100 + dF * 10 ^ (2 - e) : Nat) : Int) * 10 ^ e := by
    push_cast
    calc ((dI : Int) * 10 ^ e + (dF : Int)) * 100
        = (dI : Int) * 10 ^ e * 100 + (dF : Int) * 100 := by ring
      _ = (dI : Int) * 10 ^ e * 100 + (dF : Int) * ((10 : Int) ^ (2 - e) * 10 ^ e) := by
          rw [hpow]
      _ = ((dI : Int) * 100 + (dF : Int) * 10 ^ (2 - e)) * 10 ^ e := by ring
  rw [key, roundHalfEven_exact _ _ hd]

theorem tdiv_tmod_cents (q r : Nat) (hr : r < 100) :
    ((q * 100 + r : Nat) : Int).tdiv 100 = q ∧ ((q * 100 + r : Nat) : Int).tmod 100 = r := by
  have hrw : ((q * 100 + r : Nat) : Int) = (r : Int) + 100 * (q : Int) := by
    push_cast
    ring
  constructor
  · rw [hrw, Int.tdiv_eq_ediv (by positivity) (by norm_num)]
    rw [Int.add_mul_ediv_left _ _ (by norm_num : (100 : Int) ≠ 0)]
    rw [Int.ediv_eq_zero_of_lt (by positivity) (by exact_mod_cast hr)]
    simp
  · rw [hrw, Int.tmod_eq_emod (by positivity) (by norm_num)]
    rw [Int.add_mul_emod_self_left]
    exact Int.emod_eq_of_lt (by positivity) (by exact_mod_cast hr)

theorem digit_char_zero_iff {a : Char} (h : a.isDigit = true) :
    a = '0' ↔ a.toNat - 48 = 0 := by
  constructor
  · intro h0; subst h0; decide
  · intro h0
    have h2 := char_digit_eq_ofNat h
    rw [h0] at h2
    exact h2.trans (by decide)

theorem digit_char_ofNat {a : Char} (h : a.isDigit = true) :
    Char.ofNat (48 + (a.toNat - 48)) = a := (char_digit_eq_ofNat h).symm

theorem pyFormat02_of_nat (n : Nat) : pyFormat02 (n : Int) = pad2 n := by
  rw [pyFormat02, if_neg (not_lt.mpr (by positivity))]
  simp

theorem words_eq_of_parts (n2w : Int → Option String) (amount : String)
    (eD cF : List Char) (dec : Dec)
    (h1 : amountParts amount = some (eD, cF))
    (h2 : pyInt eD = some (euroPartOf dec))
    (h3 : cF ≠ [])
    (h4 : cF = ['0', '0'] ↔ centPartOf dec = 0)
    (h5 : centPartOf dec ≠ 0 → pyFormat02 (centPartOf dec) = cF) :
    amount_to_words n2w amount = amount_decimal_to_words n2w dec := by
  cases hn : n2w (euroPartOf dec) with
  | none => simp only [amount_to_words, amount_decimal_to_words, h1, h2, hn]
  | some w =>
    simp only [amount_to_words, amount_decimal_to_words, h1, h2, hn]
    by_cases hc : centPartOf dec = 0
    · rw [if_neg (fun hand => hand.2 (h4.mpr hc)), if_neg (by simpa using hc)]
    · have hcf : cF ≠ ['0', '0'] := fun he => hc (h4.mp he)
      rw [if_pos ⟨h3, hcf⟩, if_pos hc, h5 hc]

/-- Counterexample for claim C1 as stated: for the value 0.019 the
single-receipt path truncates the fractional digits to 01 while the
exact-decimal path rounds 1.9 cents half-even to 02, so the outputs of
the two paths differ. -/
theorem claim_C1_counterexample :
    amount_to_words n2wConst "0,019" = some "X Euro und 01/100"
  ∧ amount_decimal_to_words n2wConst ⟨19, 3⟩ = some "X Euro und 02/100"
  ∧ amount_to_words n2wConst "0,019" ≠ amount_decimal_to_words n2wConst ⟨19, 3⟩ := by
  exact ⟨by decide, by decide, by decide⟩

/-- Claim C1, amended: for every nonnegative amount written as a digit run
with an optional decimal separator and at most two fractional digits (the
shape of every well-formed ledger amount), the single-receipt path and the
exact-decimal path on the decimal of the same value produce identical
output, for every words collaborator; amounts with three or more
fractional digits (truncated by one path, rounded by the other) and
negative amounts are excluded. -/
theorem claim_C1_amended :
    ∀ (n2w : Int → Option String) (intD fracD : List Char),
      intD ≠ [] → intD.all Char.isDigit = true →
      fracD.all Char.isDigit = true → fracD.length ≤ 2 →
      (amount_to_words n2w (String.mk (intD ++ ',' :: fracD)) =
        amount_decimal_to_words n2w ⟨(digitsVal (intD ++ fracD) : Int), fracD.length⟩)
      ∧ (amount_to_words n2w (String.mk intD) =
        amount_decimal_to_words n2w ⟨(digitsVal intD : Int), 0⟩) := by
  intro n2w intD fracD hne hdigB hfdigB hlen
  have hdig : ∀ c ∈ intD, c.isDigit = true := List.all_eq_true.mp hdigB
  have hfdig : ∀ c ∈ fracD, c.isDigit = true := List.all_eq_true.mp hfdigB
  constructor
  · -- the comma-separated amount
    have hnws : ∀ c ∈ intD ++ ',' :: fracD, c.isWhitespace = false := by
      intro c hc
      rcases List.mem_append.mp hc with h | h
      · exact (char_digit_ne_special (hdig c h)).2.2.2.2
      · rcases List.mem_cons.mp h with rfl | h2
        · decide
        · exact (char_digit_ne_special (hfdig c h2)).2.2.2.2
    have hndot : ∀ c ∈ intD ++ ',' :: fracD, c ≠ '.' := by
      intro c hc
      rcases List.mem_append.mp hc with h | h
      · exact (char_digit_ne_special (hdig c h)).2.1
      · rcases List.mem_cons.mp h with rfl | h2
        · decide
        · exact (char_digit_ne_special (hfdig c h2)).2.1
    have hcomma_int : ∀ c ∈ intD, c ≠ ',' :=
      fun c h => (char_digit_ne_special (hdig c h)).1
    have hcomma_frac : ∀ c ∈ fracD, c ≠ ',' :=
      fun c h => (char_digit_ne_special (hfdig c h)).1
    have hcontains : ((intD ++ ',' :: fracD).contains ',') = true :=
      List.elem_iff.mpr (by simp)
    have hsplit : pySplit ',' (intD ++ ',' :: fracD) = [intD, fracD] := by
      rw [pySplit_append_sep fracD hcomma_int, pySplit_no_sep hcomma_frac]
    have hparts : amountParts (String.mk (intD ++ ',' :: fracD)) =
        some (intD, (fracD ++ ['0', '0']).take 2) := by
      simp only [amountParts, mk_data, pyStrip_eq_self hnws,
        pyReplaceChar_eq_self _ hndot, hcontains, hsplit, if_true]
    have hcent_lt : digitsVal fracD * 10 ^ (2 - fracD.length) < 100 := by
      have hdF : digitsVal fracD < 10 ^ fracD.length := digitsVal_lt hfdig
      have hpow : 10 ^ fracD.length * 10 ^ (2 - fracD.length) = 100 := by
        rw [← pow_add]
        have h2 : fracD.length + (2 - fracD.length) = 2 := by omega
        rw [h2]
        norm_num
      calc digitsVal fracD * 10 ^ (2 - fracD.length)
          < 10 ^ fracD.length * 10 ^ (2 - fracD.length) :=
            mul_lt_mul_of_pos_right hdF (by positivity)
        _ = 100 := hpow
    have hcents : totalCentsOf ⟨(digitsVal (intD ++ fracD) : Int), fracD.length⟩ =
        ((digitsVal intD * 100 + digitsVal fracD * 10 ^ (2 - fracD.length) : Nat) : Int) := by
      rw [digitsVal_append intD fracD]
      exact totalCents_mk _ _ _ hlen
    have heuro : euroPartOf ⟨(digitsVal (intD ++ fracD) : Int), fracD.length⟩ =
        ((digitsVal intD : Nat) : Int) := by
      rw [euroPartOf, hcents]
      exact (tdiv_tmod_cents _ _ hcent_lt).1
    have hcent : centPartOf ⟨(digitsVal (intD ++ fracD) : Int), fracD.length⟩ =
        ((digitsVal fracD * 10 ^ (2 - fracD.length) : Nat) : Int) := by
      rw [centPartOf, hcents]
      exact (tdiv_tmod_cents _ _ hcent_lt).2
    refine words_eq_of_parts n2w _ intD ((fracD ++ ['0', '0']).take 2) _ hparts ?_ ?_ ?_ ?_
    · rw [heuro]
      exact pyInt_digits hne hdig
    · intro h0
      have h2 := amountParts_cent_len hparts
      rw [h0] at h2
      simp at h2
    · rw [hcent]
      match fracD, hfdig, hlen with
      | [], _, _ =>
        simp [digitsVal]
      | [a], hf, _ =>
        have ha := hf a (by simp)
        show [a, '0'] = ['0', '0'] ↔ _
        rw [digitsVal_one]
        have hiff := digit_char_zero_iff ha
        constructor
        · intro he
          have hz := hiff.mp (List.cons.inj he).1
          simp [hz]
        · intro he
          have hz : a.toNat - 48 = 0 := by
            have h3 : (a.toNat - 48) * 10 ^ (2 - 1) = 0 := by exact_mod_cast he
            simpa using h3
          rw [hiff.mpr hz]
      | [a, b], hf, _ =>
        have ha := hf a (by simp)
        have hb := hf b (by simp)
        show [a, b] = ['0', '0'] ↔ _
        rw [digitsVal_two]
        constructor
        · intro he
          have h1 : a = '0' := (List.cons.inj he).1
          have h2 : b = '0' := (List.cons.inj (List.cons.inj he).2).1
          have hz1 := (digit_char_zero_iff ha).mp h1
          have hz2 := (digit_char_zero_iff hb).mp h2
          simp [hz1, hz2]
        · intro he
          have h3 : 10 * (a.toNat - 48) + (b.toNat - 48) = 0 := by
            have h4 : (10 * (a.toNat - 48) + (b.toNat - 48)) * 10 ^ (2 - 2) = 0 := by
              exact_mod_cast he
            simpa using h4
          have hz1 : a.toNat - 48 = 0 := by omega
          have hz2 : b.toNat - 48 = 0 := by omega
          rw [(digit_char_zero_iff ha).mpr hz1, (digit_char_zero_iff hb).mpr hz2]
      | _ :: _ :: _ :: _, _, hl =>
        simp at hl
    · rw [hcent]
      intro hcne
      match fracD, hfdig, hlen, hcne with
      | [], _, _, hcne =>
        exact absurd (by simp [digitsVal]) hcne
      | [a], hf, _, hcne =>
        have ha := hf a (by simp)
        have hbound := char_isDigit_bounds ha
        have hvne : a.toNat - 48 ≠ 0 := by
          intro hz
          exact hcne (by simp [digitsVal_one, hz])
        show pyFormat02 _ = [a, '0']
        have hval : digitsVal [a] * 10 ^ (2 - ([a] : List Char).length) =
            (a.toNat - 48) * 10 := by
          simp [digitsVal_one]
        rw [hval, pyFormat02_of_nat]
        rw [pad2, if_neg (by omega)]
        rw [decimalRender_two (by omega) (by omega)]
        have hdiv : (a.toNat - 48) * 10 / 10 = a.toNat - 48 :=
          Nat.mul_div_cancel _ (by norm_num)
        have hmod : (a.toNat - 48) * 10 % 10 = 0 := Nat.mul_mod_left _ _
        rw [hdiv, hmod]
        rw [digit_char_ofNat ha]
      | [a, b], hf, _, hcne =>
        have ha := hf a (by simp)
        have hb := hf b (by simp)
        have hba := char_isDigit_bounds ha
        have hbb := char_isDigit_bounds hb
        have hvne : 10 * (a.toNat - 48) + (b.toNat - 48) ≠ 0 := by
          intro hz
          exact hcne (by simp [digitsVal_two, hz])
        show pyFormat02 _ = [a, b]
        have hval : digitsVal [a, b] * 10 ^ (2 - ([a, b] : List Char).length) =
            10 * (a.toNat - 48) + (b.toNat - 48) := by
          simp [digitsVal_two]
        rw [hval, pyFormat02_of_nat]
        by_cases hva : a.toNat - 48 = 0
        · rw [pad2, if_pos (by omega)]
          have hvbne : b.toNat - 48 ≠ 0 := by omega
          rw [decimalRender_small (by omega)]
          have h0 : 10 * (a.toNat - 48) + (b.toNat - 48) = b.toNat - 48 := by omega
          rw [h0, digit_char_ofNat hb]
          have h1 : a = '0' := (digit_char_zero_iff ha).mpr hva
          rw [h1]
        · rw [pad2, if_neg (by omega)]
          rw [decimalRender_two (by omega) (by omega)]
          have hdiv : (10 * (a.toNat - 48) + (b.toNat - 48)) / 10 = a.toNat - 48 := by
            omega
          have hmod : (10 * (a.toNat - 48) + (b.toNat - 48)) % 10 = b.toNat - 48 := by
            omega
          rw [hdiv, hmod, digit_char_ofNat ha, digit_char_ofNat hb]
      | _ :: _ :: _ :: _, _, hl, _ =>
        simp at hl
  · -- the amount without a separator
    have hnws : ∀ c ∈ intD, c.isWhitespace = false :=
      fun c h => (char_digit_ne_special (hdig c h)).2.2.2.2
    have hndot : ∀ c ∈ intD, c ≠ '.' :=
      fun c h => (char_digit_ne_special (hdig c h)).2.1
    have hnocomma : ',' ∉ intD :=
      fun hm => (char_digit_ne_special (hdig ',' hm)).1 rfl
    have hcont : (intD.contains ',') = false := by
      cases hb : (intD.contains ',') with
      | false => rfl
      | true => exact absurd (List.elem_iff.mp hb) hnocomma
    have hparts : amountParts (String.mk intD) = some (intD, ['0', '0']) := by
      simp only [amountParts, mk_data, pyStrip_eq_self hnws,
        pyReplaceChar_eq_self _ hndot, hcont, Bool.false_eq_true, if_false]
    have hcents : totalCentsOf ⟨(digitsVal intD : Int), 0⟩ =
        ((digitsVal intD * 100 + 0 : Nat) : Int) := by
      rw [totalCentsOf]
      simp only [pow_zero]
      have hrw : (digitsVal intD : Int) * 100 =
          ((digitsVal intD * 100 + 0 : Nat) : Int) * 1 := by push_cast; ring
      rw [hrw, roundHalfEven_exact _ _ one_pos]
    have heuro : euroPartOf ⟨(digitsVal intD : Int), 0⟩ = ((digitsVal intD : Nat) : Int) := by
      rw [euroPartOf, hcents]
      exact (tdiv_tmod_cents _ _ (by norm_num)).1
    have hcentz : centPartOf ⟨(digitsVal intD : Int), 0⟩ = 0 := by
      rw [centPartOf, hcents]
      exact_mod_cast (tdiv_tmod_cents (digitsVal intD) 0 (by norm_num)).2
    refine words_eq_of_parts n2w _ intD ['0', '0'] _ hparts ?_ (by decide) ?_ ?_
    · rw [heuro]
      exact pyInt_digits hne hdig
    · exact iff_of_true rfl hcentz
    · intro h
      exact absurd hcentz h

/-- Witness for claim C1: the amended theorem applied to the spec example
30,50, with every hypothesis discharged by evaluation. -/
theorem claim_C1_amended_witness :
    amount_to_words n2wConst "30,50" = amount_decimal_to_words n2wConst ⟨3050, 2⟩ := by
  have e1 : ("30,50" : String) = String.mk (['3', '0'] ++ ',' :: ['5', '0']) := by decide
  have e2 : (⟨3050, 2⟩ : Dec) =
      ⟨(digitsVal (['3', '0'] ++ ['5', '0']) : Int), (['5', '0'] : List Char).length⟩ := by
    decide
  rw [e1, e2]
  exact (claim_C1_amended n2wConst ['3', '0'] ['5', '0']
    (by decide) (by decide) (by decide) (by decide)).1

end SpendenB
